import Mathlib

/-!
Shallow embedding of the currency-normalization pipeline of the
InvestBoard repository (src/datapreparer.py together with the error
classes of src/errors.py).  Amounts are modelled as rationals, dates as
natural-number day indices, pandas DataFrames as lists of row records,
and the pycbrf historical-rate collaborator as a function
`Date → String → Option ℚ` (returning `none` when no rate is published
for the requested pair, which is what `ExchangeRates(date)[code]`
does: its item lookup uses `dict.get` and yields Python `None`).
-/

namespace InvestBoard

/-- Day index standing for a Python datetime date. -/
abbrev Date := Nat

/-- The historical-rate collaborator (`pycbrf.toolbox.ExchangeRates`):
`none` means no rate is published for that date and currency. -/
abbrev HistRates := Date → String → Option ℚ

/-- A cell of a pandas DataFrame after it may have been touched by
`fillna`: either a missing value (NaN / None), a number, or a string. -/
inductive Cell where
  | na : Cell
  | num : ℚ → Cell
  | str : String → Cell
deriving DecidableEq, Repr, Inhabited

/-- `fillna(1.0)` on one cell: every missing value of every column
becomes the float 1.0, other cells are unchanged. -/
def Cell.fill1 : Cell → Cell
  | .na => .num 1
  | c => c

/-- Lift an optional string field of a raw record into a DataFrame cell
(Python `None` becomes a missing cell). -/
def cellOfStr : Option String → Cell
  | none => .na
  | some s => .str s

/-- Python `str(x)` on an optional string: `str(None)` is `"None"`. -/
def pyStr : Option String → String
  | none => "None"
  | some s => s

/-- Embedding of the enum flattening used in `_to_DataFrame`
(`typ[typ.find(chr 46) + 1:]`): the substring after the first dot, or
the whole string when it contains no dot (Python `find` returns -1 and
the slice starts at index 0). -/
def afterFirstDot (s : List Char) : List Char :=
  match s.dropWhile (fun c => c ≠ '.') with
  | [] => s
  | _ :: rest => rest

/-- String-level enum flattening of `_to_DataFrame`. -/
def stripEnum (s : String) : String :=
  ⟨afterFirstDot s.data⟩

/-- Substring after the LAST qualifier separator.  This definition
follows the WORDS of the specification ("reduced to their bare terminal
name, the substring after the last qualifier separator"), to be compared
with `stripEnum`, the definition taken from the source. -/
def specBareTerminalName (s : String) : String :=
  ⟨(s.data.reverse.takeWhile (fun c => c ≠ '.')).reverse⟩

/-- tinvest `MoneyAmount`: a currency code (enum string form) and a
decimal value. -/
structure MoneyAmount where
  currency : String
  value : ℚ
deriving DecidableEq, Repr

/-- Raw tinvest `PortfolioPosition` record, restricted to the fields
read by `_to_DataFrame`.  Fields that the code reads through attribute
access and arithmetic (`average_position_price.value`,
`expected_yield.value`, `balance`) must be present for the code not to
crash, so they are non-optional; `figi`, `ticker` and `name` are passed
through verbatim and may be Python `None`. -/
structure PortfolioPosition where
  figi : Option String
  ticker : Option String
  name : Option String
  average_position_price : MoneyAmount
  expected_yield : MoneyAmount
  balance : ℚ
  instrument_type : String
deriving DecidableEq, Repr

/-- Raw tinvest `Operation` record, restricted to the fields read by
`_to_DataFrame`.  `commission` and `instrument_type` are optional and
are guarded in the code; the other read fields are required. -/
structure Operation where
  id : String
  figi : Option String
  date : Date
  payment : ℚ
  commission : Option MoneyAmount
  currency : String
  quantity_executed : Option ℚ
  instrument_type : Option String
  operation_type : String
deriving DecidableEq, Repr

/-- One row of the positions DataFrame built by `_to_DataFrame`
(columns figi, ticker, name, cost, yield, value, currency, balance,
instrument).  String columns fed from optional raw fields may hold a
missing value. -/
structure PosRow where
  figi : Option String
  ticker : Option String
  name : Option String
  cost : ℚ
  yld : ℚ
  value : ℚ
  currency : String
  balance : ℚ
  instrument : String
deriving DecidableEq, Repr

/-- One row of the operations DataFrame built by `_to_DataFrame`. -/
structure OpRow where
  id : String
  figi : Option String
  date : Date
  payment : ℚ
  commission : Option ℚ
  currency : String
  quantity : Option ℚ
  instrument : Option String
  operation : String
deriving DecidableEq, Repr

/-- A positions table: rows plus the optional constant account column
(`portfolio['account'] = account_name`, only when the name is truthy). -/
structure PosTable where
  rows : List PosRow
  account : Option String
deriving DecidableEq, Repr

/-- An operations table with its optional account column. -/
structure OpTable where
  rows : List OpRow
  account : Option String
deriving DecidableEq, Repr

/-- The exchange-rates table built from the rate-snapshot dict:
(currency, exchange_rate) rows in dict iteration order, plus the
optional account column. -/
structure RatesTable where
  rows : List (String × ℚ)
  account : Option String
deriving DecidableEq, Repr

/-- Python truthiness of the optional `account_name` argument:
`None` and the empty string are falsy. -/
def truthy : Option String → Bool
  | none => false
  | some s => !s.isEmpty

/-- The account column attached to each table: the account name when it
is truthy, no column otherwise. -/
def accCol (account_name : Option String) : Option String :=
  if truthy account_name then account_name else none

/-- The positions DataFrame row built for one raw position by
`_to_DataFrame` (lines 72-92).  The `value` column is
`average_position_price.value * balance + expected_yield.value`. -/
def posRowOf (p : PortfolioPosition) : PosRow :=
  { figi := p.figi
    ticker := p.ticker
    name := p.name
    cost := p.average_position_price.value
    yld := p.expected_yield.value
    value := p.average_position_price.value * p.balance
               + p.expected_yield.value
    currency := stripEnum p.expected_yield.currency
    balance := p.balance
    instrument := stripEnum p.instrument_type }

/-- The operations DataFrame row built for one raw operation by
`_to_DataFrame` (lines 97-119). -/
def opRowOf (o : Operation) : OpRow :=
  { id := o.id
    figi := o.figi
    date := o.date
    payment := o.payment
    commission := o.commission.map (fun m => m.value)
    currency := stripEnum o.currency
    quantity := o.quantity_executed
    instrument := if pyStr o.instrument_type ≠ "" then
        some (stripEnum (pyStr o.instrument_type)) else none
    operation := stripEnum o.operation_type }

/-- Embedding of `_to_DataFrame`: builds the three DataFrames from the
raw lists and the rate-snapshot association list, flattening enum
fields with `stripEnum` and attaching the account column when the
account name is truthy. -/
def to_DataFrame (portfolio : List PortfolioPosition)
    (operations : List Operation)
    (exchange_rates : List (String × ℚ))
    (account_name : Option String) :
    PosTable × OpTable × RatesTable :=
  (⟨portfolio.map posRowOf, accCol account_name⟩,
   ⟨operations.map opRowOf, accCol account_name⟩,
   ⟨exchange_rates, accCol account_name⟩)

/-- The Python exceptions that `_currency_comparability` can actually
raise: a pandas `KeyError` from dropping an absent column, and the
`AttributeError` raised when `ExchangeRates(date)[code]` returns `None`
(no published rate) and the code dereferences `.rate` on it. -/
inductive PyError where
  | keyError : String → PyError
  | attributeError : String → PyError
deriving DecidableEq, Repr

/-- The error classes declared in the `datapreparer.py Errors` region of
src/errors.py.  That region is empty in the source, so this type has no
constructors: datapreparer.py declares no error class of its own (in
particular no `RateUnavailableError` and no `MalformedEnumValue`). -/
inductive DataPreparerError : Type

/-- The message of the `AttributeError` produced by `.rate` on the
`None` returned by a failed pycbrf rate lookup.  It carries no date and
no currency. -/
def missingRateMsg : String :=
  "AttributeError: NoneType object has no attribute rate"

/-- `df.drop(columns='account')` on the exchange-rates table: succeeds
(returning the rate rows) only when the account column is present,
otherwise raises `KeyError`. -/
def dropAccountColumn (rt : RatesTable) : Except PyError (List (String × ℚ)) :=
  match rt.account with
  | some _ => .ok rt.rows
  | none => .error (.keyError "account")

/-- The list of exchange-rate matches for a currency in a left merge:
pandas keeps every left row, pairing it with each matching right row,
or with a single all-NaN right side when there is no match. -/
def matchedRates (rs : List (String × ℚ)) (c : String) : List (Option ℚ) :=
  let l := (rs.filter (fun r => r.1 = c)).map (fun r => some r.2)
  if l.isEmpty then [none] else l

/-- The single-match rate of a left merge whose right side has unique
keys: the first (only) snapshot entry for the currency, if any. -/
def lookupRate (rs : List (String × ℚ)) (c : String) : Option ℚ :=
  (rs.find? (fun r => r.1 = c)).map (fun r => r.2)

/-- One row of the converted positions table: the columns of the merged
frame after `fillna(1.0)` (so the nullable string columns are `Cell`s),
the derived `value_RUB` column, and the derived `value_X` columns as a
(currency, value) list in rate-snapshot order.  The `exchange_rate`
column is dropped at the end of the source and so does not appear. -/
structure ConvPosRow where
  figi : Cell
  ticker : Cell
  name : Cell
  cost : ℚ
  yld : ℚ
  value : ℚ
  currency : String
  balance : ℚ
  instrument : String
  valueRUB : ℚ
  values : List (String × ℚ)
deriving DecidableEq, Repr, Inhabited

/-- Cell of the derived `value_X` column for one converted position row
in the concatenated frame: `none` (NaN) when the column does not exist
for this row's account. -/
def valueCell (r : ConvPosRow) (X : String) : Option ℚ :=
  (r.values.find? (fun v => v.1 = X)).map (fun v => v.2)

/-- Position conversion for one input row (lines 139-160 of
datapreparer.py): left-merge with the rate rows, `fillna(1.0)` over the
whole merged frame, `value_RUB = value * exchange_rate`, then for every
snapshot row (X, rate) the column `value_X = value_RUB / rate`,
overridden to `value_RUB` itself on rows whose currency is RUB. -/
def convertPosRow (rs : List (String × ℚ)) (p : PosRow) : List ConvPosRow :=
  (matchedRates rs p.currency).map fun r? =>
    let rate : ℚ := match r? with
      | none => 1
      | some r => r
    let vR := p.value * rate
    { figi := (cellOfStr p.figi).fill1
      ticker := (cellOfStr p.ticker).fill1
      name := (cellOfStr p.name).fill1
      cost := p.cost
      yld := p.yld
      value := p.value
      currency := p.currency
      balance := p.balance
      instrument := p.instrument
      valueRUB := vR
      values := rs.map fun e =>
        (e.1, if p.currency = "RUB" then vR else vR / e.2) }

/-- Position conversion over the whole table (merge output preserves the
left row order, listing the matches of one left row consecutively). -/
def convertPositions (rs : List (String × ℚ)) (rows : List PosRow) :
    List ConvPosRow :=
  rows.flatMap (convertPosRow rs)

/-- One row of the converted operations table: the original columns,
`payment_RUB` and `commission_RUB`, and for every snapshot currency X
(in snapshot order) the pair `payment_X`, `commission_X`.  A missing
commission propagates as a missing cell through the multiplications and
divisions.  The working `exchange_rate` column is dropped at the end. -/
structure ConvOpRow where
  base : OpRow
  paymentRUB : ℚ
  commissionRUB : Option ℚ
  extras : List (String × ℚ × Option ℚ)
deriving DecidableEq, Repr

/-- The per-row base-currency rate of lines 163-166: 1 when the row's
currency is RUB (no lookup is issued), otherwise the historical rate
for the row's own currency on the row's date; a missing published rate
is the `None.rate` AttributeError. -/
def baseRate (hist : HistRates) (o : OpRow) : Except PyError ℚ :=
  if o.currency = "RUB" then .ok 1
  else match hist o.date o.currency with
    | some r => .ok r
    | none => .error (.attributeError missingRateMsg)

/-- The per-row rate of the per-currency loop of lines 175-180: 1 when
the row's currency is RUB (the guard compares against RUB, not against
the target currency X), otherwise the historical rate FOR X on the
row's date. -/
def rateFor (hist : HistRates) (X : String) (o : OpRow) : Except PyError ℚ :=
  if o.currency = "RUB" then .ok 1
  else match hist o.date X with
    | some r => .ok r
    | none => .error (.attributeError missingRateMsg)

/-- The base pass of lines 163-171: compute the exchange-rate column row
by row (pandas `apply` raises at the first failing row), then
`payment_RUB = payment * rate` and
`commission_RUB = commission * rate` (missing stays missing). -/
def basePass (hist : HistRates) : List OpRow → Except PyError (List ConvOpRow)
  | [] => .ok []
  | o :: os => do
      let rate ← baseRate hist o
      let rest ← basePass hist os
      .ok ({ base := o
             paymentRUB := o.payment * rate
             commissionRUB := o.commission.map (fun c => c * rate)
             extras := [] } :: rest)

/-- One iteration of the per-currency loop of lines 175-186 for target
currency X: recompute the exchange-rate column row by row with
`rateFor`, then append the columns `payment_X = payment_RUB / rate` and
`commission_X = commission_RUB / rate`. -/
def passFor (hist : HistRates) (X : String) :
    List ConvOpRow → Except PyError (List ConvOpRow)
  | [] => .ok []
  | r :: rest => do
      let rate ← rateFor hist X r.base
      let rest' ← passFor hist X rest
      .ok ({ r with extras := r.extras ++
              [(X, r.paymentRUB / rate,
                r.commissionRUB.map (fun c => c / rate))] } :: rest')

/-- The per-currency loop of line 175, iterating the snapshot currencies
in order. -/
def currencyPasses (hist : HistRates) :
    List String → List ConvOpRow → Except PyError (List ConvOpRow)
  | [], rows => .ok rows
  | X :: Xs, rows => do
      let rows' ← passFor hist X rows
      currencyPasses hist Xs rows'

/-- Operation conversion of lines 162-188: the base pass, then one pass
per snapshot currency. -/
def convertOperations (hist : HistRates) (rs : List (String × ℚ))
    (rows : List OpRow) : Except PyError (List ConvOpRow) := do
  let rows' ← basePass hist rows
  currencyPasses hist (rs.map (fun e => e.1)) rows'

/-- A converted positions table. -/
structure ConvPosTable where
  rows : List ConvPosRow
  account : Option String
deriving DecidableEq, Repr

/-- A converted operations table. -/
structure ConvOpTable where
  rows : List ConvOpRow
  account : Option String
deriving DecidableEq, Repr

/-- Embedding of `_currency_comparability`: drop the account column of
the rates table for the merge (raising KeyError when it is absent),
convert positions, convert operations, and return the three tables; the
rates table is returned unchanged. -/
def currency_comparability (hist : HistRates)
    (data : PosTable × OpTable × RatesTable) :
    Except PyError (ConvPosTable × ConvOpTable × RatesTable) := do
  let (pt, ot, rt) := data
  let rsNoAcc ← dropAccountColumn rt
  let cpos := convertPositions rsNoAcc pt.rows
  let cops ← convertOperations hist rt.rows ot.rows
  .ok (⟨cpos, pt.account⟩, ⟨cops, ot.account⟩, rt)

/-- Embedding of `_prepare_data`: `_to_DataFrame` then
`_currency_comparability`. -/
def prepare_data (hist : HistRates) (portfolio : List PortfolioPosition)
    (operations : List Operation) (exchange_rates : List (String × ℚ))
    (account_name : Option String) :
    Except PyError (ConvPosTable × ConvOpTable × RatesTable) :=
  currency_comparability hist
    (to_DataFrame portfolio operations exchange_rates account_name)

/-- The raw triple supplied for one account by the broker data
collaborator. -/
structure AccountData where
  portfolio : List PortfolioPosition
  operations : List Operation
  exchange_rates : List (String × ℚ)
deriving DecidableEq, Repr

/-- The per-account step of the loop in `concat_accounts`
(`_prepare_data(*val, account_name=key)`). -/
def prepAccount (hist : HistRates) (ka : String × AccountData) :
    Except PyError (ConvPosTable × ConvOpTable × RatesTable) :=
  prepare_data hist ka.2.portfolio ka.2.operations ka.2.exchange_rates
    (some ka.1)

/-- The Python for-loop over the account mapping: process accounts in
iteration order, propagating the first exception. -/
def exceptMapM (f : α → Except PyError β) : List α → Except PyError (List β)
  | [] => .ok []
  | a :: as => do
      let b ← f a
      let bs ← exceptMapM f as
      .ok (b :: bs)

/-- A row of a concatenated table: the row paired with the value of its
account column (`none` when that column did not exist for its table;
`pd.concat` aligns columns by name and fills NaN). -/
abbrev Tagged (α : Type) := α × Option String

/-- Embedding of `concat_accounts`: prepare each account of the mapping
in iteration order, then concatenate each of the three families with
`pd.concat(ignore_index=True)`, which appends the tables' rows in order
and takes the union of their columns. -/
def concat_accounts (hist : HistRates)
    (accounts : List (String × AccountData)) :
    Except PyError
      (List (Tagged ConvPosRow) × List (Tagged ConvOpRow) ×
        List (Tagged (String × ℚ))) := do
  let prepared ← exceptMapM (prepAccount hist) accounts
  .ok (prepared.flatMap (fun t => t.1.rows.map (fun r => (r, t.1.account))),
       prepared.flatMap (fun t => t.2.1.rows.map (fun r => (r, t.2.1.account))),
       prepared.flatMap (fun t => t.2.2.rows.map (fun r => (r, t.2.2.account))))

/-- The derived `value_X` columns of the concatenated positions frame:
the union of the per-row column sets in order of first appearance. -/
def combinedValueColumns (rows : List (Tagged ConvPosRow)) : List String :=
  (rows.flatMap (fun r => r.1.values.map (fun v => v.1))).dedup

/-- A sample USD position row (value 3). -/
def pUSDsample : PosRow :=
  { figi := none, ticker := none, name := none, cost := 3, yld := 0,
    value := 3, currency := "USD", balance := 1, instrument := "Stock" }

/-- A sample RUB position row (value 7). -/
def pRUBsample : PosRow :=
  { figi := none, ticker := none, name := none, cost := 7, yld := 0,
    value := 7, currency := "RUB", balance := 1, instrument := "Stock" }

/-- The converted row produced for `pUSDsample` under snapshot {USD: 2}. -/
def pUSDconvSample : ConvPosRow :=
  { figi := .num 1, ticker := .num 1, name := .num 1, cost := 3, yld := 0,
    value := 3, currency := "USD", balance := 1, instrument := "Stock",
    valueRUB := 6, values := [("USD", 3)] }

/-- The converted row produced for `pRUBsample` under snapshot {USD: 2}. -/
def pRUBconvSample : ConvPosRow :=
  { figi := .num 1, ticker := .num 1, name := .num 1, cost := 7, yld := 0,
    value := 7, currency := "RUB", balance := 1, instrument := "Stock",
    valueRUB := 7, values := [("USD", 7)] }

/-- A sample raw position record. -/
def rawPosSample : PortfolioPosition :=
  { figi := some "BBG000000001", ticker := some "TST", name := some "Test",
    average_position_price := ⟨"Currency.RUB", 100⟩,
    expected_yield := ⟨"Currency.RUB", 0⟩, balance := 1,
    instrument_type := "InstrumentType.Stock" }

/-- A historical-rate collaborator with no published rates at all. -/
def histNone : HistRates := fun _ _ => none

/-- A sample raw EUR operation dated day 7. -/
def opEURraw : Operation :=
  { id := "42", figi := none, date := 7, payment := 10, commission := none,
    currency := "Currency.EUR", quantity_executed := none,
    instrument_type := none, operation_type := "OperationType.Buy" }

/-- Cell of the derived `payment_X`, `commission_X` column pair for one
converted operation row in the concatenated frame. -/
def extraCell (r : ConvOpRow) (X : String) : Option (ℚ × Option ℚ) :=
  (r.extras.find? (fun v => v.1 = X)).map (fun v => v.2)

/-- All historical rates needed to convert one operation row are
published: nothing for a RUB row; for any other row, the rate for the
row's own currency and the rate for every snapshot currency, all on the
row's date. -/
def ratesOkForRow (hist : HistRates) (cs : List String) (o : OpRow) : Prop :=
  o.currency ≠ "RUB" →
    (hist o.date o.currency).isSome = true ∧
    ∀ X ∈ cs, (hist o.date X).isSome = true

/-- The value computed for one operation row by the conversion of lines
162-188 when every needed rate is published (the `getD 1` branches are
unreachable under `ratesOkForRow`). -/
def convRowVal (hist : HistRates) (rs : List (String × ℚ)) (o : OpRow) :
    ConvOpRow :=
  let rate : ℚ := if o.currency = "RUB" then 1 else
    (hist o.date o.currency).getD 1
  let pR := o.payment * rate
  let cR := o.commission.map (fun c => c * rate)
  { base := o
    paymentRUB := pR
    commissionRUB := cR
    extras := rs.map fun e =>
      let rX : ℚ := if o.currency = "RUB" then 1 else
        (hist o.date e.1).getD 1
      (e.1, pR / rX, cR.map (fun c => c / rX)) }

/-- Historical rates for the C2 counterexample: 2 RUB per USD on day 0. -/
def histUSD : HistRates := fun d c =>
  if d = 0 ∧ c = "USD" then some 2 else none

/-- A USD operation row dated day 0 with payment 5. -/
def opUSDrow : OpRow :=
  { id := "1", figi := none, date := 0, payment := 5, commission := none,
    currency := "USD", quantity := none, instrument := none,
    operation := "Buy" }

/-- The row produced by the base pass of lines 163-171 when the needed
rate is published. -/
def baseRowVal (hist : HistRates) (o : OpRow) : ConvOpRow :=
  let rate : ℚ := if o.currency = "RUB" then 1 else
    (hist o.date o.currency).getD 1
  { base := o
    paymentRUB := o.payment * rate
    commissionRUB := o.commission.map (fun c => c * rate)
    extras := [] }

/-- The `payment_X`, `commission_X` entry appended to one row by the
pass for target currency X when the needed rate is published. -/
def extraVal (hist : HistRates) (X : String) (r : ConvOpRow) :
    String × ℚ × Option ℚ :=
  let rX : ℚ := if r.base.currency = "RUB" then 1 else
    (hist r.base.date X).getD 1
  (X, r.paymentRUB / rX, r.commissionRUB.map (fun c => c / rX))

/-- Append the derived columns for target currency X to one row. -/
def addExtra (hist : HistRates) (X : String) (r : ConvOpRow) : ConvOpRow :=
  { r with extras := r.extras ++ [extraVal hist X r] }

/-- Append the derived columns for a list of target currencies. -/
def addAll (hist : HistRates) (cs : List String) (r : ConvOpRow) :
    ConvOpRow :=
  { r with extras := r.extras ++ cs.map (fun X => extraVal hist X r) }

/-- A RUB operation row dated day 0 with payment 3 and commission 1. -/
def opRUBrow : OpRow :=
  { id := "2", figi := none, date := 0, payment := 3, commission := some 1,
    currency := "RUB", quantity := none, instrument := none,
    operation := "Buy" }

/-- The row the code computes for `opUSDrow` under snapshot {USD: 2}
and `histUSD`: payment_RUB is 10, while payment_USD is 10 / 2 = 5. -/
def opUSDconv : ConvOpRow :=
  { base := opUSDrow, paymentRUB := 10, commissionRUB := none,
    extras := [("USD", 5, none)] }

/-- Sample account A: one position, snapshot {USD: 90}. -/
def acctA : AccountData := ⟨[rawPosSample], [], [("USD", 90)]⟩

/-- Sample account B: no positions, snapshot {EUR: 100}. -/
def acctB : AccountData := ⟨[], [], [("EUR", 100)]⟩

/-- Sample account B with one position, snapshot {EUR: 100}. -/
def acctB2 : AccountData := ⟨[rawPosSample], [], [("EUR", 100)]⟩

/-- The prepared triple of account A under `histNone`. -/
def tAprep : ConvPosTable × ConvOpTable × RatesTable :=
  (⟨convertPositions [("USD", 90)] ([rawPosSample].map posRowOf), some "A"⟩,
   ⟨[], some "A"⟩, ⟨[("USD", 90)], some "A"⟩)

/-- The prepared triple of account B under `histNone`. -/
def tBprep : ConvPosTable × ConvOpTable × RatesTable :=
  (⟨[], some "B"⟩, ⟨[], some "B"⟩, ⟨[("EUR", 100)], some "B"⟩)

/-- The prepared triple of the one-position account B under `histNone`. -/
def tB2prep : ConvPosTable × ConvOpTable × RatesTable :=
  (⟨convertPositions [("EUR", 100)] ([rawPosSample].map posRowOf), some "B"⟩,
   ⟨[], some "B"⟩, ⟨[("EUR", 100)], some "B"⟩)

/-! Helper lemmas. -/

theorem filter_keys_eq_nil {rs : List (String × ℚ)} {c : String}
    (h : c ∉ rs.map Prod.fst) : rs.filter (fun r => r.1 = c) = [] := by
  rw [List.filter_eq_nil_iff]
  intro a ha
  simp only [decide_eq_true_eq]
  intro hc
  exact h (by simpa [hc] using List.mem_map_of_mem Prod.fst ha)

theorem lookupRate_eq_none {rs : List (String × ℚ)} {c : String}
    (h : c ∉ rs.map Prod.fst) : lookupRate rs c = none := by
  unfold lookupRate
  rw [List.find?_eq_none.mpr]
  · rfl
  · intro a ha
    simp only [decide_eq_true_eq]
    intro hc
    exact h (by simpa [hc] using List.mem_map_of_mem Prod.fst ha)

theorem matchedRates_of_nodup {rs : List (String × ℚ)} {c : String}
    (hnd : (rs.map Prod.fst).Nodup) :
    matchedRates rs c = [lookupRate rs c] := by
  induction rs with
  | nil => rfl
  | cons a tl ih =>
    rw [List.map_cons, List.nodup_cons] at hnd
    by_cases hac : a.1 = c
    · have htl : tl.filter (fun r => r.1 = c) = [] :=
        filter_keys_eq_nil (hac ▸ hnd.1)
      simp [matchedRates, lookupRate, List.filter_cons, hac, htl]
    · have h1 : matchedRates tl c = [lookupRate tl c] := ih hnd.2
      simp only [matchedRates, lookupRate, List.filter_cons, List.find?_cons,
        hac, decide_eq_true_eq, if_false, decide_False] at h1 ⊢
      simpa [hac] using h1

theorem convertPosRow_length_of_nodup {rs : List (String × ℚ)} {p : PosRow}
    (hnd : (rs.map Prod.fst).Nodup) :
    (convertPosRow rs p).length = 1 := by
  rw [convertPosRow, matchedRates_of_nodup hnd]
  rfl

theorem find?_map_keyed {β : Type} (g : String × ℚ → β)
    {rs : List (String × ℚ)} {X : String} {rX : ℚ}
    (hnd : (rs.map Prod.fst).Nodup) (hX : (X, rX) ∈ rs) :
    (rs.map (fun e => (e.1, g e))).find? (fun v => v.1 = X) =
      some (X, g (X, rX)) := by
  induction rs with
  | nil => cases hX
  | cons a tl ih =>
    rw [List.map_cons, List.nodup_cons] at hnd
    rcases List.mem_cons.mp hX with h | h
    · subst h
      simp [List.find?_cons]
    · have hax : ¬ a.1 = X := by
        intro he
        exact hnd.1 (he ▸ List.mem_map_of_mem Prod.fst h)
      simp only [List.map_cons, List.find?_cons, hax, decide_False]
      exact ih hnd.2 h

/-! Claim theorems about position conversion. -/

/-- C1: after position conversion, for every snapshot entry (X, rate),
a position row whose native currency is not the base currency RUB has
`value_X = value_RUB / rate(X)`, and a position row whose native
currency is RUB has `value_X = value_RUB` (not divided by rate(X)). -/
theorem spec_position_value_columns (rs : List (String × ℚ)) (p : PosRow)
    (r : ConvPosRow) (hr : r ∈ convertPosRow rs p)
    (hnd : (rs.map Prod.fst).Nodup)
    (X : String) (rX : ℚ) (hX : (X, rX) ∈ rs) :
    (p.currency ≠ "RUB" → valueCell r X = some (r.valueRUB / rX)) ∧
    (p.currency = "RUB" → valueCell r X = some r.valueRUB) := by
  have key : ∀ (c : String) (vR : ℚ),
      (List.map (fun e => (e.1, if c = "RUB" then vR else vR / e.2))
          rs).find? (fun v => v.1 = X) =
        some (X, if c = "RUB" then vR else vR / rX) :=
    fun c vR =>
      find?_map_keyed (fun e => if c = "RUB" then vR else vR / e.2) hnd hX
  obtain ⟨r?, -, rfl⟩ := List.mem_map.mp hr
  constructor
  · intro hc
    unfold valueCell
    rw [key]
    simp [hc]
  · intro hc
    unfold valueCell
    rw [key]
    simp [hc]

/-- Witness for C1 at a concrete input: snapshot {USD: 2}, one USD
position of value 3 and one RUB position of value 7. -/
theorem spec_position_value_columns_witness :
    valueCell pUSDconvSample "USD" = some (pUSDconvSample.valueRUB / 2) ∧
    valueCell pRUBconvSample "USD" = some pRUBconvSample.valueRUB := by
  have h1 : pUSDconvSample ∈ convertPosRow [("USD", 2)] pUSDsample := by
    have h : convertPosRow [("USD", 2)] pUSDsample = [pUSDconvSample] := by
      simp [convertPosRow, matchedRates, pUSDsample, pUSDconvSample,
        cellOfStr, Cell.fill1]
      norm_num
    rw [h]
    exact List.mem_singleton_self _
  have h2 : pRUBconvSample ∈ convertPosRow [("USD", 2)] pRUBsample := by
    have h : convertPosRow [("USD", 2)] pRUBsample = [pRUBconvSample] := by
      simp [convertPosRow, matchedRates, pRUBsample, pRUBconvSample,
        cellOfStr, Cell.fill1]
    rw [h]
    exact List.mem_singleton_self _
  exact ⟨(spec_position_value_columns [("USD", 2)] pUSDsample pUSDconvSample
      h1 (by decide) "USD" 2 (by simp)).1 (by decide),
    (spec_position_value_columns [("USD", 2)] pRUBsample pRUBconvSample
      h2 (by decide) "USD" 2 (by simp)).2 (by decide)⟩

/-- C3: positions are left-joined to the snapshot, every row is kept
(one output row per input row when the snapshot keys are unique),
`value_RUB = value * matched-or-default rate` with the unmatched rate
defaulting to 1, and a base-currency position (whose currency has no
snapshot entry) keeps `value_RUB = value` exactly. -/
theorem spec_position_left_join_default (rs : List (String × ℚ))
    (rows : List PosRow) (hnd : (rs.map Prod.fst).Nodup) :
    (convertPositions rs rows).length = rows.length ∧
    ∀ p ∈ rows, ∀ r ∈ convertPosRow rs p,
      r.valueRUB = p.value * ((lookupRate rs p.currency).getD 1) ∧
      ("RUB" ∉ rs.map Prod.fst → p.currency = "RUB" →
        r.valueRUB = p.value) := by
  constructor
  · induction rows with
    | nil => rfl
    | cons p tl ih =>
      show (convertPosRow rs p ++ convertPositions rs tl).length = tl.length + 1
      rw [List.length_append, convertPosRow_length_of_nodup hnd, ih,
        Nat.add_comm]
  · intro p _ r hr
    rw [convertPosRow, matchedRates_of_nodup hnd] at hr
    simp only [List.map_cons, List.map_nil, List.mem_singleton] at hr
    subst hr
    constructor
    · cases h : lookupRate rs p.currency <;> simp [h]
    · intro hRUB hc
      rw [lookupRate_eq_none (hc ▸ hRUB)]
      simp

/-- Witness for C3 at a concrete input: snapshot {USD: 2}, a USD
position and a RUB position (no snapshot entry, default rate 1). -/
theorem spec_position_left_join_default_witness :
    (convertPositions [("USD", 2)] [pUSDsample, pRUBsample]).length = 2 ∧
    ∀ r ∈ convertPosRow [("USD", 2)] pRUBsample, r.valueRUB = 7 := by
  have h := spec_position_left_join_default [("USD", 2)]
    [pUSDsample, pRUBsample] (by decide)
  refine ⟨h.1, fun r hr => ?_⟩
  have h2 := (h.2 pRUBsample (by simp) r hr).2 (by decide) rfl
  simpa [pRUBsample] using h2

/-- C10: the `fillna(1.0)` applied after the left join fills missing
values in every column of the merged positions table, not only the
exchange-rate column: a row whose name, ticker or figi cell is absent
gets the number 1.0 there in the output.  (These three are the only
columns of the merged frame, besides the exchange rate, that can hold a
missing value: the numeric columns are computed from required fields of
the raw records, and `currency`, `instrument` and the account column
are always populated.) -/
theorem spec_fillna_every_column (rs : List (String × ℚ)) (p : PosRow)
    (r : ConvPosRow) (hr : r ∈ convertPosRow rs p) :
    (p.name = none → r.name = Cell.num 1) ∧
    (p.ticker = none → r.ticker = Cell.num 1) ∧
    (p.figi = none → r.figi = Cell.num 1) := by
  obtain ⟨r?, -, rfl⟩ := List.mem_map.mp hr
  refine ⟨fun h => ?_, fun h => ?_, fun h => ?_⟩ <;>
    simp [h, cellOfStr, Cell.fill1]

/-- Witness for C10 at a concrete input: `pUSDsample` has no name, and
its converted row carries the number 1.0 in the name column. -/
theorem spec_fillna_every_column_witness :
    pUSDconvSample.name = Cell.num 1 := by
  have h1 : pUSDconvSample ∈ convertPosRow [("USD", 2)] pUSDsample := by
    have h : convertPosRow [("USD", 2)] pUSDsample = [pUSDconvSample] := by
      simp [convertPosRow, matchedRates, pUSDsample, pUSDconvSample,
        cellOfStr, Cell.fill1]
      norm_num
    rw [h]
    exact List.mem_singleton_self _
  exact (spec_fillna_every_column [("USD", 2)] pUSDsample pUSDconvSample
    h1).1 rfl

/-! Claim theorems about enum flattening, untagged mode, and the
missing-rate failure mode. -/

/-- C6 counterexample: the normalizer slices after the FIRST dot
(`typ.find`), not after the last qualifier separator, so a value with
two separators keeps its middle qualifier; `specBareTerminalName` is
the behavior the claim describes. -/
theorem claim_enum_last_separator_cex :
    stripEnum "InstrumentType.Sub.Stock" = "Sub.Stock" ∧
    specBareTerminalName "InstrumentType.Sub.Stock" = "Stock" ∧
    stripEnum "InstrumentType.Sub.Stock" ≠
      specBareTerminalName "InstrumentType.Sub.Stock" := by
  refine ⟨by decide, by decide, by decide⟩

/-- C6 (amended): the normalizer reduces a qualified symbolic name to
the substring after the FIRST qualifier separator, and a value with no
separator passes through unchanged (the normalization is total and
raises no error; no `MalformedEnumValue` class exists, see
`DataPreparerError`). -/
theorem spec_enum_first_separator (a b s : String)
    (ha : '.' ∉ a.data) (hs : '.' ∉ s.data) :
    stripEnum (a ++ "." ++ b) = b ∧ stripEnum s = s := by
  constructor
  · have hdata : (a ++ "." ++ b).data = a.data ++ '.' :: b.data := by
      simp [String.data_append]
    have h1 : a.data.dropWhile (fun c => c ≠ '.') = [] :=
      List.dropWhile_eq_nil_iff.mpr (fun x hx => by
        simp only [ne_eq, decide_not, Bool.not_eq_true']
        rw [decide_eq_false_iff_not]
        rintro rfl
        exact ha hx)
    have hdrop : (a.data ++ '.' :: b.data).dropWhile (fun c => c ≠ '.') =
        '.' :: b.data := by
      rw [List.dropWhile_append, h1]
      simp [List.dropWhile_cons]
    show (⟨afterFirstDot (a ++ "." ++ b).data⟩ : String) = b
    rw [hdata]
    unfold afterFirstDot
    rw [hdrop]
  · have h1 : s.data.dropWhile (fun c => c ≠ '.') = [] :=
      List.dropWhile_eq_nil_iff.mpr (fun x hx => by
        simp only [ne_eq, decide_not, Bool.not_eq_true']
        rw [decide_eq_false_iff_not]
        rintro rfl
        exact hs hx)
    show (⟨afterFirstDot s.data⟩ : String) = s
    unfold afterFirstDot
    rw [h1]

/-- Witness for the amended C6 on concrete enum strings. -/
theorem spec_enum_first_separator_witness :
    stripEnum ("InstrumentType" ++ "." ++ "Stock") = "Stock" ∧
    stripEnum "USD" = "USD" :=
  spec_enum_first_separator "InstrumentType" "Stock" "USD"
    (by decide) (by decide)

/-- C9 (code bug): calling the per-account pipeline without an account
tag does not succeed with account-less tables: `_currency_comparability`
unconditionally drops the account column of the exchange-rates table,
which was never added, so the run raises `KeyError('account')`. -/
theorem spec_untagged_mode_crashes :
    prepare_data histNone [rawPosSample] [] [("USD", 90)] none =
      .error (.keyError "account") := by
  rfl

/-- C5 (code bug): when no rate is published for the requested
(date, currency) pair the aggregation does abort with no partial
dataset, but not with a distinct `RateUnavailableError` carrying the
date and the currency: the code dereferences `.rate` on the `None`
returned by the lookup, producing a generic `AttributeError` that
carries neither, and the datapreparer errors region of src/errors.py
declares no error class at all. -/
theorem spec_missing_rate_crash :
    concat_accounts histNone
        [("Main", ⟨[], [opEURraw], [("USD", 90)]⟩)] =
      .error (.attributeError missingRateMsg) ∧
    ¬ ∃ e : DataPreparerError, True := by
  constructor
  · rfl
  · rintro ⟨e, -⟩
    cases e

/-! Characterization of the operation conversion. -/

theorem basePass_ok {hist : HistRates} {rows : List OpRow}
    (hok : ∀ o ∈ rows, o.currency ≠ "RUB" →
      (hist o.date o.currency).isSome = true) :
    basePass hist rows = .ok (rows.map (baseRowVal hist)) := by
  induction rows with
  | nil => rfl
  | cons o os ih =>
    have hrate : baseRate hist o = .ok (if o.currency = "RUB" then 1 else
        (hist o.date o.currency).getD 1) := by
      unfold baseRate
      by_cases h : o.currency = "RUB"
      · simp [h]
      · rcases Option.isSome_iff_exists.mp
          (hok o (List.mem_cons_self o os) h) with ⟨v, hv⟩
        simp [h, hv]
    have hrest := ih (fun o ho => hok o (List.mem_cons_of_mem _ ho))
    rw [basePass, hrate, hrest]
    rfl

theorem passFor_ok {hist : HistRates} {X : String} {rows : List ConvOpRow}
    (hok : ∀ r ∈ rows, r.base.currency ≠ "RUB" →
      (hist r.base.date X).isSome = true) :
    passFor hist X rows = .ok (rows.map (addExtra hist X)) := by
  induction rows with
  | nil => rfl
  | cons r rest ih =>
    have hrate : rateFor hist X r.base = .ok (if r.base.currency = "RUB"
        then 1 else (hist r.base.date X).getD 1) := by
      unfold rateFor
      by_cases h : r.base.currency = "RUB"
      · simp [h]
      · rcases Option.isSome_iff_exists.mp
          (hok r (List.mem_cons_self r rest) h) with ⟨v, hv⟩
        simp [h, hv]
    have hrest := ih (fun r hr => hok r (List.mem_cons_of_mem _ hr))
    rw [passFor, hrate, hrest]
    rfl

theorem addAll_addExtra (hist : HistRates) (X : String) (cs : List String)
    (r : ConvOpRow) :
    addAll hist cs (addExtra hist X r) = addAll hist (X :: cs) r := by
  cases r
  simp [addAll, addExtra, extraVal, List.append_assoc]

theorem addAll_nil (hist : HistRates) (r : ConvOpRow) :
    addAll hist [] r = r := by
  cases r
  simp [addAll]

theorem currencyPasses_ok {hist : HistRates} :
    ∀ (cs : List String) (rows : List ConvOpRow),
    (∀ r ∈ rows, r.base.currency ≠ "RUB" →
      ∀ X ∈ cs, (hist r.base.date X).isSome = true) →
    currencyPasses hist cs rows = .ok (rows.map (addAll hist cs))
  | [], rows, _ => by
      rw [currencyPasses]
      have h : rows.map (addAll hist []) = rows := by
        have h1 := List.map_congr_left (l := rows)
          (fun r _ => addAll_nil hist r)
        simpa using h1
      rw [h]
  | X :: Xs, rows, hok => by
      have h1 : passFor hist X rows = .ok (rows.map (addExtra hist X)) :=
        passFor_ok (fun r hr hc => hok r hr hc X (List.mem_cons_self X Xs))
      have h2 : currencyPasses hist Xs (rows.map (addExtra hist X)) =
          .ok ((rows.map (addExtra hist X)).map (addAll hist Xs)) :=
        currencyPasses_ok Xs (rows.map (addExtra hist X)) (by
          intro r hr hc Y hY
          obtain ⟨r0, hr0, rfl⟩ := List.mem_map.mp hr
          have hc' : r0.base.currency ≠ "RUB" := by
            simpa [addExtra] using hc
          simpa [addExtra] using
            hok r0 hr0 hc' Y (List.mem_cons_of_mem _ hY))
      rw [currencyPasses, h1]
      show currencyPasses hist Xs (rows.map (addExtra hist X)) = _
      rw [h2, List.map_map]
      congr 1
      exact List.map_congr_left (fun r _ => addAll_addExtra hist X Xs r)

theorem convRowVal_eq (hist : HistRates) (rs : List (String × ℚ))
    (o : OpRow) :
    convRowVal hist rs o = addAll hist (rs.map Prod.fst) (baseRowVal hist o) := by
  simp [convRowVal, addAll, baseRowVal, extraVal, List.map_map]

theorem convertOperations_ok {hist : HistRates} {rs : List (String × ℚ)}
    {rows : List OpRow}
    (hok : ∀ o ∈ rows, ratesOkForRow hist (rs.map Prod.fst) o) :
    convertOperations hist rs rows = .ok (rows.map (convRowVal hist rs)) := by
  have h1 : basePass hist rows = .ok (rows.map (baseRowVal hist)) :=
    basePass_ok (fun o ho hc => ((hok o ho) hc).1)
  have h2 : currencyPasses hist (rs.map Prod.fst)
      (rows.map (baseRowVal hist)) =
      .ok ((rows.map (baseRowVal hist)).map (addAll hist (rs.map Prod.fst))) :=
    currencyPasses_ok _ _ (by
      intro r hr hc Y hY
      obtain ⟨o, ho, rfl⟩ := List.mem_map.mp hr
      have hc' : o.currency ≠ "RUB" := by
        simpa [baseRowVal] using hc
      simpa [baseRowVal] using ((hok o ho) hc').2 Y hY)
  rw [convertOperations, h1]
  show currencyPasses hist (rs.map Prod.fst) (rows.map (baseRowVal hist)) = _
  rw [h2, List.map_map]
  congr 1
  exact List.map_congr_left (fun o _ => (convRowVal_eq hist rs o).symm)

theorem convRowVal_extras (hist : HistRates) (rs : List (String × ℚ))
    (o : OpRow) :
    (convRowVal hist rs o).extras = rs.map (fun e =>
      (e.1, (convRowVal hist rs o).paymentRUB /
          (if o.currency = "RUB" then 1 else (hist o.date e.1).getD 1),
        (convRowVal hist rs o).commissionRUB.map (fun c => c /
          (if o.currency = "RUB" then 1 else (hist o.date e.1).getD 1)))) := by
  simp [convRowVal]

/-- C4: in operation conversion the base-currency rate is 1.0 for a row
whose currency is RUB (the conversion of such a row does not consult
the historical-rate collaborator at all: it is the same for every
collaborator), and otherwise is the historical rate for the row's own
currency on the row's date; `payment_RUB = payment * rate`,
`commission_RUB = commission * rate`, and an absent commission is
propagated as absent. -/
theorem spec_operation_base_conversion (hist : HistRates)
    (rs : List (String × ℚ)) (rows : List OpRow)
    (hok : ∀ o ∈ rows, ratesOkForRow hist (rs.map Prod.fst) o) :
    convertOperations hist rs rows = .ok (rows.map (convRowVal hist rs)) ∧
    ∀ o ∈ rows,
      (o.currency = "RUB" →
        (convRowVal hist rs o).paymentRUB = o.payment ∧
        (convRowVal hist rs o).commissionRUB = o.commission ∧
        ∀ hist2 : HistRates, convRowVal hist2 rs o = convRowVal hist rs o) ∧
      (o.currency ≠ "RUB" → ∀ v, hist o.date o.currency = some v →
        (convRowVal hist rs o).paymentRUB = o.payment * v ∧
        (convRowVal hist rs o).commissionRUB =
          o.commission.map (fun c => c * v)) ∧
      (o.commission = none → (convRowVal hist rs o).commissionRUB = none) := by
  refine ⟨convertOperations_ok hok,
    fun o _ => ⟨fun hc => ?_, fun hc v hv => ?_, fun hc => ?_⟩⟩
  · exact ⟨by simp [convRowVal, hc], by simp [convRowVal, hc],
      fun hist2 => by simp [convRowVal, hc]⟩
  · exact ⟨by simp [convRowVal, hc, hv], by simp [convRowVal, hc, hv]⟩
  · simp [convRowVal, hc]

/-- Witness for C4 at a concrete input: `histUSD`, snapshot {USD: 2},
a USD operation (payment 5, no commission) and a RUB operation
(payment 3). -/
theorem spec_operation_base_conversion_witness :
    convertOperations histUSD [("USD", 2)] [opUSDrow, opRUBrow] =
      .ok ([opUSDrow, opRUBrow].map (convRowVal histUSD [("USD", 2)])) ∧
    (convRowVal histUSD [("USD", 2)] opRUBrow).paymentRUB =
      opRUBrow.payment ∧
    (convRowVal histUSD [("USD", 2)] opUSDrow).paymentRUB =
      opUSDrow.payment * 2 ∧
    (convRowVal histUSD [("USD", 2)] opUSDrow).commissionRUB = none := by
  have h := spec_operation_base_conversion histUSD [("USD", 2)]
    [opUSDrow, opRUBrow]
    (by simp [ratesOkForRow, histUSD, opUSDrow, opRUBrow])
  refine ⟨h.1, ((h.2 opRUBrow (by simp)).1 rfl).1, ?_,
    (h.2 opUSDrow (by simp)).2.2 rfl⟩
  exact ((h.2 opUSDrow (by simp)).2.1 (by decide) 2
    (by simp [histUSD, opUSDrow])).1

/-- C2 counterexample: for a USD operation row and target currency
X = USD, the per-currency loop guard compares the row's currency
against RUB, not against X, so the resolved rate is the historical USD
rate 2 and payment_USD = payment_RUB / 2 = 5, not
payment_RUB / 1.0 = 10 as the claim predicts. -/
theorem claim_target_rate_is_one_cex :
    convertOperations histUSD [("USD", 2)] [opUSDrow] = .ok [opUSDconv] ∧
    opUSDconv.paymentRUB = 10 ∧
    extraCell opUSDconv "USD" = some (5, none) ∧
    ¬ ((5 : ℚ) = 10 / 1) := by
  refine ⟨?_, rfl, rfl, by norm_num⟩
  rw [convertOperations_ok
    (by simp [ratesOkForRow, histUSD, opUSDrow])]
  show Except.ok [convRowVal histUSD [("USD", 2)] opUSDrow] = _
  congr 1
  simp [convRowVal, histUSD, opUSDrow, opUSDconv]
  norm_num

/-- C2 (amended): in operation conversion, for every snapshot currency
X and every row, the resolved rate used for payment_X and commission_X
is 1.0 when the row's currency equals the BASE currency RUB (not when
it equals X), and otherwise is the historical rate FOR X on the row's
date; then payment_X = payment_RUB / resolved rate and
commission_X = commission_RUB / resolved rate. -/
theorem spec_operation_target_conversion (hist : HistRates)
    (rs : List (String × ℚ)) (rows : List OpRow)
    (hok : ∀ o ∈ rows, ratesOkForRow hist (rs.map Prod.fst) o)
    (hnd : (rs.map Prod.fst).Nodup) :
    convertOperations hist rs rows = .ok (rows.map (convRowVal hist rs)) ∧
    ∀ o ∈ rows, ∀ X rX, (X, rX) ∈ rs → ∀ ρ : ℚ,
      (o.currency = "RUB" → ρ = 1) →
      (o.currency ≠ "RUB" → hist o.date X = some ρ) →
      extraCell (convRowVal hist rs o) X =
        some ((convRowVal hist rs o).paymentRUB / ρ,
          (convRowVal hist rs o).commissionRUB.map (fun c => c / ρ)) := by
  refine ⟨convertOperations_ok hok, fun o _ X rX hX ρ h1 h2 => ?_⟩
  unfold extraCell
  rw [convRowVal_extras, find?_map_keyed (fun e =>
    ((convRowVal hist rs o).paymentRUB /
        (if o.currency = "RUB" then 1 else (hist o.date e.1).getD 1),
      (convRowVal hist rs o).commissionRUB.map (fun c => c /
        (if o.currency = "RUB" then 1 else (hist o.date e.1).getD 1))))
    hnd hX]
  by_cases hc : o.currency = "RUB"
  · rw [h1 hc]
    simp [hc]
  · rw [h2 hc] at *
    simp [hc, h2 hc]

/-- Witness for the amended C2 at a concrete input. -/
theorem spec_operation_target_conversion_witness :
    extraCell (convRowVal histUSD [("USD", 2)] opUSDrow) "USD" =
      some ((convRowVal histUSD [("USD", 2)] opUSDrow).paymentRUB / 2,
        (convRowVal histUSD [("USD", 2)] opUSDrow).commissionRUB.map
          (fun c => c / 2)) ∧
    extraCell (convRowVal histUSD [("USD", 2)] opRUBrow) "USD" =
      some ((convRowVal histUSD [("USD", 2)] opRUBrow).paymentRUB / 1,
        (convRowVal histUSD [("USD", 2)] opRUBrow).commissionRUB.map
          (fun c => c / 1)) := by
  have h := spec_operation_target_conversion histUSD [("USD", 2)]
    [opUSDrow, opRUBrow]
    (by simp [ratesOkForRow, histUSD, opUSDrow, opRUBrow]) (by decide)
  exact ⟨h.2 opUSDrow (by simp) "USD" 2 (by simp) 2
      (fun hc => absurd hc (by decide)) (fun _ => by simp [histUSD, opUSDrow]),
    h.2 opRUBrow (by simp) "USD" 2 (by simp) 1
      (fun _ => rfl) (fun hc => absurd rfl hc)⟩

/-! Characterization of the aggregation. -/

theorem exceptBind_ok {ε α β : Type} {x : Except ε α} {f : α → Except ε β}
    {b : β} (h : (x >>= f) = .ok b) : ∃ a, x = .ok a ∧ f a = .ok b := by
  cases x with
  | error e => exact absurd h (fun hh => nomatch hh)
  | ok a => exact ⟨a, rfl, h⟩

theorem exceptMapM_ok_spec {α β : Type} {f : α → Except PyError β} :
    ∀ {l : List α} {l2 : List β}, exceptMapM f l = .ok l2 →
      l2.length = l.length ∧
      ∀ i (h : i < l.length) (h2 : i < l2.length),
        f (l.get ⟨i, h⟩) = .ok (l2.get ⟨i, h2⟩) := by
  intro l
  induction l with
  | nil =>
    intro l2 h
    injection h with h
    subst h
    exact ⟨rfl, fun i hi _ => absurd hi (Nat.not_lt_zero i)⟩
  | cons a as ih =>
    intro l2 h
    rw [exceptMapM] at h
    obtain ⟨b, hb, h2⟩ := exceptBind_ok h
    obtain ⟨bs, hbs, h3⟩ := exceptBind_ok h2
    injection h3 with h3
    subst h3
    obtain ⟨hlen, hget⟩ := ih hbs
    refine ⟨by simp [hlen], ?_⟩
    intro i hi hi2
    cases i with
    | zero => simpa using hb
    | succ n =>
      rw [List.get_cons_succ, List.get_cons_succ]
      exact hget n (by simpa using hi) (by simpa using hi2)

theorem truthy_some {k : String} (hk : k ≠ "") : truthy (some k) = true := by
  unfold truthy
  rw [Bool.not_eq_true']
  rw [Bool.eq_false_iff]
  intro h2
  exact hk ((String.isEmpty_iff k).mp h2)

theorem accCol_some {k : String} (hk : k ≠ "") : accCol (some k) = some k := by
  unfold accCol
  rw [truthy_some hk]
  rfl

theorem accCol_eq_some {k A : String} (h : accCol (some k) = some A) :
    k = A := by
  unfold accCol at h
  by_cases ht : truthy (some k) = true
  · rw [if_pos ht] at h
    injection h
  · rw [if_neg ht] at h
    exact nomatch h

theorem currency_comparability_ok {hist : HistRates} {pt : PosTable}
    {ot : OpTable} {rt : RatesTable}
    {t : ConvPosTable × ConvOpTable × RatesTable}
    (h : currency_comparability hist (pt, ot, rt) = .ok t) :
    rt.account.isSome = true ∧
    t.1 = ⟨convertPositions rt.rows pt.rows, pt.account⟩ ∧
    convertOperations hist rt.rows ot.rows = .ok t.2.1.rows ∧
    t.2.1.account = ot.account ∧ t.2.2 = rt := by
  unfold currency_comparability at h
  obtain ⟨rs, hrs, h2⟩ := exceptBind_ok h
  obtain ⟨cops, hcops, h3⟩ := exceptBind_ok h2
  have hrt : rt.account.isSome = true ∧ rs = rt.rows := by
    unfold dropAccountColumn at hrs
    cases hacc : rt.account with
    | none =>
      rw [hacc] at hrs
      exact nomatch hrs
    | some a =>
      rw [hacc] at hrs
      injection hrs with hrs
      exact ⟨rfl, hrs.symm⟩
  obtain ⟨hacc, rfl⟩ := hrt
  injection h3 with h3
  subst h3
  exact ⟨hacc, rfl, hcops, rfl, rfl⟩

theorem prepAccount_parts {hist : HistRates} {ka : String × AccountData}
    {t : ConvPosTable × ConvOpTable × RatesTable}
    (h : prepAccount hist ka = .ok t) :
    t.1.account = accCol (some ka.1) ∧
    t.2.1.account = accCol (some ka.1) ∧
    t.2.2 = ⟨ka.2.exchange_rates, accCol (some ka.1)⟩ ∧
    t.1.rows = convertPositions ka.2.exchange_rates
      (ka.2.portfolio.map posRowOf) := by
  have h2 : currency_comparability hist
      (⟨ka.2.portfolio.map posRowOf, accCol (some ka.1)⟩,
       ⟨ka.2.operations.map opRowOf, accCol (some ka.1)⟩,
       ⟨ka.2.exchange_rates, accCol (some ka.1)⟩) = .ok t := h
  obtain ⟨_, hpos, _, hops, hrt⟩ := currency_comparability_ok h2
  refine ⟨by rw [hpos], by rw [hops], by rw [hrt], by rw [hpos]⟩

theorem filter_tagged_eq_nil {A : String} {acc : Option String}
    (hne : acc ≠ some A) (rows : List ConvPosRow) :
    (rows.map (fun r => (r, acc))).filter
      (fun rp => rp.2 = some A) = [] := by
  rw [List.filter_eq_nil_iff]
  intro x hx
  obtain ⟨r, -, rfl⟩ := List.mem_map.mp hx
  simpa using hne

theorem filter_tagged_all {A : String} (rows : List ConvPosRow) :
    (rows.map (fun r => (r, some A))).filter (fun rp => rp.2 = some A) =
      rows.map (fun r => (r, some A)) := by
  rw [List.filter_eq_self]
  intro x hx
  obtain ⟨r, -, rfl⟩ := List.mem_map.mp hx
  simp

theorem concatPos_filter_nil {hist : HistRates} {A : String} :
    ∀ {accounts : List (String × AccountData)}
      {prepared : List (ConvPosTable × ConvOpTable × RatesTable)},
      exceptMapM (prepAccount hist) accounts = .ok prepared →
      (∀ ka ∈ accounts, ka.1 ≠ A) →
      (prepared.flatMap
          (fun t => t.1.rows.map (fun r => (r, t.1.account)))).filter
        (fun rp => rp.2 = some A) = [] := by
  intro accounts
  induction accounts with
  | nil =>
    intro prepared h _
    injection h with h
    subst h
    rfl
  | cons ka as ih =>
    intro prepared h hA
    rw [exceptMapM] at h
    obtain ⟨t, ht, h2⟩ := exceptBind_ok h
    obtain ⟨ts, hts, h3⟩ := exceptBind_ok h2
    injection h3 with h3
    subst h3
    have hne : t.1.account ≠ some A := by
      obtain ⟨hacc, -⟩ := prepAccount_parts ht
      rw [hacc]
      intro hEq
      exact hA ka (List.mem_cons_self _ _) (accCol_eq_some hEq)
    rw [List.flatMap_cons, List.filter_append, filter_tagged_eq_nil hne,
      ih hts (fun kb hb => hA kb (List.mem_cons_of_mem _ hb))]
    rfl

theorem concatPos_filter {hist : HistRates} {A : String} (hA : A ≠ "") :
    ∀ {accounts : List (String × AccountData)}
      {prepared : List (ConvPosTable × ConvOpTable × RatesTable)},
      exceptMapM (prepAccount hist) accounts = .ok prepared →
      (accounts.map Prod.fst).Nodup →
      ∀ i (hi : i < accounts.length) (hi2 : i < prepared.length),
        (accounts.get ⟨i, hi⟩).1 = A →
        (prepared.flatMap
            (fun t => t.1.rows.map (fun r => (r, t.1.account)))).filter
          (fun rp => rp.2 = some A) =
          (prepared.get ⟨i, hi2⟩).1.rows.map (fun r => (r, some A)) := by
  intro accounts
  induction accounts with
  | nil =>
    intro prepared _ _ i hi
    exact absurd hi (Nat.not_lt_zero i)
  | cons ka as ih =>
    intro prepared h hnd i hi hi2 hiA
    rw [exceptMapM] at h
    obtain ⟨t, ht, h2⟩ := exceptBind_ok h
    obtain ⟨ts, hts, h3⟩ := exceptBind_ok h2
    injection h3 with h3
    subst h3
    rw [List.map_cons, List.nodup_cons] at hnd
    rw [List.flatMap_cons, List.filter_append]
    cases i with
    | zero =>
      have hk : ka.1 = A := by simpa using hiA
      have hacc : t.1.account = some A := by
        obtain ⟨hacc, -⟩ := prepAccount_parts ht
        rw [hacc, hk, accCol_some hA]
      have h4 : (t.1.rows.map (fun r => (r, t.1.account))).filter
          (fun rp => rp.2 = some A) = t.1.rows.map (fun r => (r, some A)) := by
        rw [hacc]
        exact filter_tagged_all _
      have hAs : ∀ kb ∈ as, kb.1 ≠ A := by
        intro kb hb hEq
        refine hnd.1 ?_
        rw [hk, ← hEq]
        exact List.mem_map_of_mem Prod.fst hb
      have h5 := concatPos_filter_nil hts hAs
      rw [h4, h5, List.append_nil]
      rfl
    | succ n =>
      have hn : n < as.length := by simpa using hi
      have hn2 : n < ts.length := by simpa using hi2
      have hiA2 : (as.get ⟨n, hn⟩).1 = A := by
        rw [← hiA, List.get_cons_succ]
      have hk : ka.1 ≠ A := by
        intro hEq
        refine hnd.1 ?_
        rw [hEq, ← hiA2]
        exact List.mem_map_of_mem Prod.fst (List.get_mem as n hn)
      have hacc : t.1.account ≠ some A := by
        obtain ⟨haccp, -⟩ := prepAccount_parts ht
        rw [haccp]
        intro hEq
        exact hk (accCol_eq_some hEq)
      rw [filter_tagged_eq_nil hacc, List.nil_append,
        ih hts hnd.2 n hn hn2 hiA2]
      congr 1

theorem flatMap_map_length {β γ δ : Type} (l : List β) (rowsOf : β → List γ)
    (f : β → γ → δ) :
    (l.flatMap (fun t => (rowsOf t).map (f t))).length =
      (l.map (fun t => (rowsOf t).length)).sum := by
  rw [List.length_flatMap]
  congr 1
  apply List.map_congr_left
  intro t _
  simp

theorem matchedRates_ne_nil (rs : List (String × ℚ)) (c : String) :
    matchedRates rs c ≠ [] := by
  simp only [matchedRates]
  by_cases h : ((rs.filter (fun r => r.1 = c)).map
      (fun r => some r.2)).isEmpty = true
  · rw [if_pos h]
    simp
  · rw [if_neg h]
    intro hnil
    rw [hnil] at h
    exact h rfl

theorem convertPosRow_ne_nil (rs : List (String × ℚ)) (p : PosRow) :
    convertPosRow rs p ≠ [] := by
  unfold convertPosRow
  intro h
  exact matchedRates_ne_nil rs p.currency (List.map_eq_nil_iff.mp h)

theorem convertPositions_ne_nil {rs : List (String × ℚ)}
    {rows : List PosRow} (h : rows ≠ []) :
    convertPositions rs rows ≠ [] := by
  cases rows with
  | nil => exact absurd rfl h
  | cons p tl =>
    show convertPosRow rs p ++ convertPositions rs tl ≠ []
    intro hh
    exact convertPosRow_ne_nil rs p (List.append_eq_nil.mp hh).1

theorem mem_convertPositions_keys {rs : List (String × ℚ)}
    {rows : List PosRow} {r : ConvPosRow}
    (hr : r ∈ convertPositions rs rows) :
    r.values.map Prod.fst = rs.map Prod.fst := by
  obtain ⟨p, -, hrp⟩ := List.mem_flatMap.mp hr
  obtain ⟨r?, -, rfl⟩ := List.mem_map.mp hrp
  simp [List.map_map, Function.comp]

theorem valueCell_none {r : ConvPosRow} {X : String}
    (h : X ∉ r.values.map Prod.fst) : valueCell r X = none := by
  unfold valueCell
  rw [List.find?_eq_none.mpr]
  · rfl
  · intro a ha
    simp only [decide_eq_true_eq]
    intro hc
    exact h (by simpa [hc] using List.mem_map_of_mem Prod.fst ha)

/-- C7: the aggregation prepares the accounts in mapping iteration
order and concatenates each family by appending the per-account tables
in that order (no deduplication, no sorting); the combined row count of
each family is the sum of the per-account row counts; and filtering the
combined positions table by an account tag A reproduces exactly that
account's prepared positions, in order. -/
theorem spec_concat_order_and_tags (hist : HistRates)
    (accounts : List (String × AccountData))
    (prepared : List (ConvPosTable × ConvOpTable × RatesTable))
    (hok : exceptMapM (prepAccount hist) accounts = .ok prepared)
    (hnd : (accounts.map Prod.fst).Nodup)
    (A : String) (hA : A ≠ "")
    (i : ℕ) (hi : i < accounts.length)
    (hiA : (accounts.get ⟨i, hi⟩).1 = A) :
    concat_accounts hist accounts = .ok
      (prepared.flatMap (fun t => t.1.rows.map (fun r => (r, t.1.account))),
       prepared.flatMap (fun t => t.2.1.rows.map (fun r => (r, t.2.1.account))),
       prepared.flatMap (fun t => t.2.2.rows.map
         (fun r => (r, t.2.2.account)))) ∧
    (prepared.flatMap
        (fun t => t.1.rows.map (fun r => (r, t.1.account)))).length =
      (prepared.map (fun t => t.1.rows.length)).sum ∧
    (prepared.flatMap
        (fun t => t.2.1.rows.map (fun r => (r, t.2.1.account)))).length =
      (prepared.map (fun t => t.2.1.rows.length)).sum ∧
    (prepared.flatMap (fun t => t.2.2.rows.map
        (fun r => (r, t.2.2.account)))).length =
      (prepared.map (fun t => t.2.2.rows.length)).sum ∧
    ∃ hi2 : i < prepared.length,
      (prepared.flatMap
          (fun t => t.1.rows.map (fun r => (r, t.1.account)))).filter
        (fun rp => rp.2 = some A) =
        (prepared.get ⟨i, hi2⟩).1.rows.map (fun r => (r, some A)) := by
  have hi2 : i < prepared.length := by
    rw [(exceptMapM_ok_spec hok).1]
    exact hi
  refine ⟨?_, flatMap_map_length prepared (fun t => t.1.rows) _,
    flatMap_map_length prepared (fun t => t.2.1.rows) _,
    flatMap_map_length prepared (fun t => t.2.2.rows) _,
    hi2, concatPos_filter hA hok hnd i hi hi2 hiA⟩
  unfold concat_accounts
  rw [hok]
  rfl

/-- Witness for C7 at a concrete input: two accounts A and B prepared
under a rate collaborator with no published rates (no operations, so no
lookup is needed). -/
theorem spec_concat_order_and_tags_witness :
    concat_accounts histNone [("A", acctA), ("B", acctB)] = .ok
      ([tAprep, tBprep].flatMap
        (fun t => t.1.rows.map (fun r => (r, t.1.account))),
       [tAprep, tBprep].flatMap
        (fun t => t.2.1.rows.map (fun r => (r, t.2.1.account))),
       [tAprep, tBprep].flatMap (fun t => t.2.2.rows.map
         (fun r => (r, t.2.2.account)))) ∧
    ([tAprep, tBprep].flatMap
        (fun t => t.1.rows.map (fun r => (r, t.1.account)))).length =
      ([tAprep, tBprep].map (fun t => t.1.rows.length)).sum ∧
    ([tAprep, tBprep].flatMap
        (fun t => t.1.rows.map (fun r => (r, t.1.account)))).filter
      (fun rp => rp.2 = some "A") =
      tAprep.1.rows.map (fun r => (r, some "A")) := by
  have h := spec_concat_order_and_tags histNone [("A", acctA), ("B", acctB)]
    [tAprep, tBprep] rfl (by decide) "A" (by decide) 0 (by decide) rfl
  obtain ⟨hfil2, hfil⟩ := h.2.2.2.2
  exact ⟨h.1, h.2.1, hfil⟩

/-- C8: when two accounts have disjoint snapshot currency sets, the
combined positions table has the union of the derived value columns,
and for a currency X absent from the second account's snapshot every
cell of the value_X column on the second account's rows is the missing
marker NaN (`none`), never the number zero. -/
theorem spec_disjoint_snapshots (hist : HistRates) (k1 k2 : String)
    (d1 d2 : AccountData) (hk : k1 ≠ k2) (hk2 : k2 ≠ "")
    (res : List (Tagged ConvPosRow) × List (Tagged ConvOpRow) ×
      List (Tagged (String × ℚ)))
    (hok : concat_accounts hist [(k1, d1), (k2, d2)] = .ok res)
    (X : String) (hX1 : X ∈ d1.exchange_rates.map Prod.fst)
    (hX2 : X ∉ d2.exchange_rates.map Prod.fst) :
    (∀ rp ∈ res.1, rp.2 = some k2 →
      valueCell rp.1 X = none ∧ valueCell rp.1 X ≠ some 0) ∧
    (d1.portfolio ≠ [] → d2.portfolio ≠ [] →
      ∀ Y, Y ∈ combinedValueColumns res.1 ↔
        (Y ∈ d1.exchange_rates.map Prod.fst ∨
         Y ∈ d2.exchange_rates.map Prod.fst)) := by
  unfold concat_accounts at hok
  obtain ⟨prepared, hprep, h2⟩ := exceptBind_ok hok
  injection h2 with h2
  subst h2
  rw [exceptMapM] at hprep
  obtain ⟨t1, ht1, hp2⟩ := exceptBind_ok hprep
  obtain ⟨bs, hbs, h4⟩ := exceptBind_ok hp2
  injection h4 with h4
  subst h4
  rw [exceptMapM] at hbs
  obtain ⟨t2, ht2, hp3⟩ := exceptBind_ok hbs
  obtain ⟨bs2, hbs2, h5⟩ := exceptBind_ok hp3
  injection hbs2 with hbs2
  subst hbs2
  injection h5 with h5
  subst h5
  obtain ⟨hacc1, -, -, hrows1⟩ := prepAccount_parts ht1
  obtain ⟨hacc2, -, -, hrows2⟩ := prepAccount_parts ht2
  constructor
  · intro rp hrp htag
    rcases List.mem_append.mp hrp with hmem | hmem
    · obtain ⟨r, -, rfl⟩ := List.mem_map.mp hmem
      have htag2 : accCol (some k1) = some k2 := by
        rw [← hacc1]
        exact htag
      exact absurd (accCol_eq_some htag2) hk
    · rcases List.mem_append.mp hmem with hmem2 | hmem2
      · obtain ⟨r, hr, rfl⟩ := List.mem_map.mp hmem2
        have hr2 : r ∈ convertPositions d2.exchange_rates
            (d2.portfolio.map posRowOf) := by
          rw [← hrows2]
          exact hr
        have hkeys : r.values.map Prod.fst =
            d2.exchange_rates.map Prod.fst :=
          mem_convertPositions_keys hr2
        have hnone : valueCell r X = none := by
          refine valueCell_none ?_
          rw [hkeys]
          exact hX2
        refine ⟨hnone, ?_⟩
        rw [hnone]
        simp
      · exact absurd hmem2 (List.not_mem_nil rp)
  · intro h1ne h2ne Y
    rw [combinedValueColumns, List.mem_dedup, List.mem_flatMap]
    constructor
    · rintro ⟨rp, hrp, hY⟩
      rw [List.mem_map] at hY
      obtain ⟨v, hv, rfl⟩ := hY
      rcases List.mem_append.mp hrp with hmem | hmem
      · obtain ⟨r, hr, rfl⟩ := List.mem_map.mp hmem
        left
        have hr2 : r ∈ convertPositions d1.exchange_rates
            (d1.portfolio.map posRowOf) := by
          rw [← hrows1]
          exact hr
        have hkeys : r.values.map Prod.fst =
            d1.exchange_rates.map Prod.fst :=
          mem_convertPositions_keys hr2
        rw [← hkeys]
        exact List.mem_map_of_mem Prod.fst hv
      · rcases List.mem_append.mp hmem with hmem2 | hmem2
        · obtain ⟨r, hr, rfl⟩ := List.mem_map.mp hmem2
          right
          have hr2 : r ∈ convertPositions d2.exchange_rates
              (d2.portfolio.map posRowOf) := by
            rw [← hrows2]
            exact hr
          have hkeys : r.values.map Prod.fst =
              d2.exchange_rates.map Prod.fst :=
            mem_convertPositions_keys hr2
          rw [← hkeys]
          exact List.mem_map_of_mem Prod.fst hv
        · exact absurd hmem2 (List.not_mem_nil rp)
    · intro hY
      rcases hY with hY | hY
      · have hne : t1.1.rows ≠ [] := by
          rw [hrows1]
          exact convertPositions_ne_nil
            (fun hmap => h1ne (List.map_eq_nil_iff.mp hmap))
        obtain ⟨r, hr⟩ := List.exists_mem_of_ne_nil t1.1.rows hne
        refine ⟨(r, t1.1.account),
          List.mem_append_left _ (List.mem_map_of_mem _ hr), ?_⟩
        show Y ∈ r.values.map Prod.fst
        have hr2 : r ∈ convertPositions d1.exchange_rates
            (d1.portfolio.map posRowOf) := by
          rw [← hrows1]
          exact hr
        have hkeys : r.values.map Prod.fst =
            d1.exchange_rates.map Prod.fst :=
          mem_convertPositions_keys hr2
        rw [hkeys]
        exact hY
      · have hne : t2.1.rows ≠ [] := by
          rw [hrows2]
          exact convertPositions_ne_nil
            (fun hmap => h2ne (List.map_eq_nil_iff.mp hmap))
        obtain ⟨r, hr⟩ := List.exists_mem_of_ne_nil t2.1.rows hne
        refine ⟨(r, t2.1.account),
          List.mem_append_right _
            (List.mem_append_left _ (List.mem_map_of_mem _ hr)), ?_⟩
        show Y ∈ r.values.map Prod.fst
        have hr2 : r ∈ convertPositions d2.exchange_rates
            (d2.portfolio.map posRowOf) := by
          rw [← hrows2]
          exact hr
        have hkeys : r.values.map Prod.fst =
            d2.exchange_rates.map Prod.fst :=
          mem_convertPositions_keys hr2
        rw [hkeys]
        exact hY

/-- Witness for C8 at a concrete input: accounts A (snapshot {USD: 90})
and B (snapshot {EUR: 100}), each with one position. -/
theorem spec_disjoint_snapshots_witness :
    (∀ rp ∈ ([tAprep, tB2prep].flatMap
        (fun t => t.1.rows.map (fun r => (r, t.1.account)))),
      rp.2 = some "B" → valueCell rp.1 "USD" = none) ∧
    "EUR" ∈ combinedValueColumns ([tAprep, tB2prep].flatMap
      (fun t => t.1.rows.map (fun r => (r, t.1.account)))) := by
  have h := spec_disjoint_snapshots histNone "A" "B" acctA acctB2
    (by decide) (by decide)
    ([tAprep, tB2prep].flatMap
        (fun t => t.1.rows.map (fun r => (r, t.1.account))),
     [tAprep, tB2prep].flatMap
        (fun t => t.2.1.rows.map (fun r => (r, t.2.1.account))),
     [tAprep, tB2prep].flatMap (fun t => t.2.2.rows.map
        (fun r => (r, t.2.2.account))))
    rfl "USD" (by simp [acctA]) (by simp [acctB2])
  refine ⟨fun rp hrp htag => (h.1 rp hrp htag).1, ?_⟩
  exact (h.2 (by simp [acctA, rawPosSample])
    (by simp [acctB2, rawPosSample]) "EUR").mpr
    (Or.inr (by simp [acctB2]))

end InvestBoard
